import Mathlib

/-!
# Verification of the go-nbt decoder

A shallow embedding of the NBT (Named Binary Tag) decoder of the `nbt`
package (files `nbt.go` and the decoder source file containing `Decode`,
`read`, `read_string`, `read_compound`, `read_list`).

Modelling conventions:
* The input stream (`io.Reader` backed by a `bytes.Buffer`) is a `List Nat`
  of byte values; a read that fails consumes the remaining bytes (as
  `io.ReadFull` does on a buffer) and leaves its destination unchanged
  (as `binary.Read` does on error).
* Go's machine integers are modelled as `Nat`/`Int`: a `w`-bit signed value
  is obtained from its unsigned big-endian bit pattern by `toSigned w`.
* `float32`/`float64` values are carried as their raw big-endian bit
  patterns (`Nat`); the decoder never computes with them.
* Go `panic` (negative `make` length, unknown list element type) and
  non-termination (the decoder can loop forever because read errors are
  ignored) are explicit result constructors; recursion is fuel-indexed,
  with fuel exhaustion mapped to the non-termination constructor.
* The source's errors are returned Go-style as a `(value, error)` pair:
  `read_compound` returns its `root` together with the error.
-/

/-! ## Tag catalog (constants from nbt.go) -/

def TagEnd : Nat := 0
def TagByte : Nat := 1
def TagShort : Nat := 2
def TagInt : Nat := 3
def TagLong : Nat := 4
def TagFloat : Nat := 5
def TagDouble : Nat := 6
def TagByteArray : Nat := 7
def TagString : Nat := 8
def TagList : Nat := 9
def TagCompound : Nat := 10
def TagIntArray : Nat := 11

/-! ## Value tree (nbt.go: `Compound`, `List`, and the dynamic types the
decoder stores in `Compound.data`'s `map[string]interface{}` slots).

The dynamic Go type of each variant (as produced by the decoder) is:
`vByte` ↦ `*int8`, `vShort` ↦ `*int16`, `vInt` ↦ `*int32`,
`vLong` ↦ `*int64`, `vFloat` ↦ `*float32`, `vDouble` ↦ `*float64`
(these six are stored by `(*Compound).store`, which passes `&value`),
`vByteArray` ↦ `[]int8`, `vString` ↦ `string` (kept as its UTF-8 bytes),
`vList` ↦ `*List`, `vCompound` ↦ `*Compound`, `vIntArray` ↦ `[]int32`.

`List.data` is an `interface{}` holding one of the slice types the list
decoder produces, modelled by `ListData`.  Names and text are byte lists
(Go strings). -/

mutual

inductive Value where
  | vByte : Int → Value
  | vShort : Int → Value
  | vInt : Int → Value
  | vLong : Int → Value
  | vFloat : Nat → Value
  | vDouble : Nat → Value
  | vByteArray : List Int → Value
  | vString : List Nat → Value
  | vList : NbtList → Value
  | vCompound : Compound → Value
  | vIntArray : List Int → Value

/-- The `Compound` struct without its `parent` back-pointer: the parent chain exists
only during decoding and is modelled by the explicit ancestor stack of the
decode loop (both `read_compound` call sites pass `parent = nil`). -/
inductive Compound where
  | mk : List Nat → List (List Nat × Value) → Compound

/-- The source's `List` struct (name, list_type, length, data); named
`NbtList` because `List` is taken in Lean. -/
inductive NbtList where
  | mk : List Nat → Nat → Int → ListData → NbtList

inductive ListData where
  | compounds : List Compound → ListData
  | bytesL : List Int → ListData
  | shortsL : List Int → ListData
  | intsL : List Int → ListData
  | longsL : List Int → ListData
  | floatsL : List Nat → ListData
  | doublesL : List Nat → ListData

end

def Compound.name : Compound → List Nat
  | .mk n _ => n

def Compound.data : Compound → List (List Nat × Value)
  | .mk _ d => d

def NbtList.name : NbtList → List Nat
  | .mk n _ _ _ => n

def NbtList.list_type : NbtList → Nat
  | .mk _ t _ _ => t

def NbtList.length : NbtList → Int
  | .mk _ _ l _ => l

def NbtList.ldata : NbtList → ListData
  | .mk _ _ _ d => d

/-! ## Go map model

`Compound.data` is a Go `map[string]interface{}`; assignment to an existing
key overwrites, `len` counts the distinct keys.  Modelled as an association
list whose assignment replaces the (first) binding of the key in place. -/

def mapInsert (m : List (List Nat × Value)) (k : List Nat) (v : Value) :
    List (List Nat × Value) :=
  match m with
  | [] => [(k, v)]
  | (k', v') :: rest =>
      if k' = k then (k, v) :: rest else (k', v') :: mapInsert rest k v

/-- Go map lookup `m[k]`: `none` models the `nil` interface produced for an
absent key. -/
def alookup (m : List (List Nat × Value)) (k : List Nat) : Option Value :=
  match m with
  | [] => none
  | (k', v) :: rest => if k' = k then some v else alookup rest k

/-! ## Primitive reader (`read` = `binary.Read(src, binary.BigEndian, dest)`) -/

/-- Big-endian composition of a byte list. -/
def beNat (bs : List Nat) : Nat :=
  bs.foldl (fun acc b => acc * 256 + b) 0

/-- Reinterpret the unsigned `w`-bit pattern `v` as a two's-complement
signed value. -/
def toSigned (w : Nat) (v : Nat) : Int :=
  if v < 2 ^ (w - 1) then (v : Int) else (v : Int) - 2 ^ w

/-- Model of `io.ReadFull` on a buffer: on success the `k` bytes and the rest of the
stream; on failure (`some`/`none` in the first component) the available
bytes are consumed and lost. -/
def readBytes (k : Nat) (s : List Nat) : Option (List Nat) × List Nat :=
  if k ≤ s.length then (some (s.take k), s.drop k) else (none, [])

/-- Model of `binary.Read` into a fresh zero `k`-byte integer variable: the error is
ignored by every caller, so on failure the destination keeps its zero
value.  Returns the unsigned bit pattern. -/
def readScalar (k : Nat) (s : List Nat) : Nat × List Nat :=
  match readBytes k s with
  | (some bs, s') => (beNat bs, s')
  | (none, s') => (0, s')

/-- Split `n` big-endian `w`-byte groups off a byte list. -/
def beChunksN (w : Nat) : Nat → List Nat → List Nat
  | 0, _ => []
  | n + 1, bs => beNat (bs.take w) :: beChunksN w n (bs.drop w)

/-- Model of `binary.Read` into a freshly made slice of `len` `w`-byte elements:
on failure the slice keeps its zero elements (the error is ignored). -/
def readBEArray (w len : Nat) (s : List Nat) : List Nat × List Nat :=
  match readBytes (w * len) s with
  | (some bs, s') => (beChunksN w len bs, s')
  | (none, s') => (List.replicate len 0, s')

/-- The source's `read_string`: reads a 2-byte length into a **signed** `int16`
(`var strlen int16`, zero on read failure), then `make([]byte, strlen)` —
which panics when `strlen < 0`, modelled by `none` — then fills the slice
(zero bytes survive a failed fill).  Returns the string's bytes and the
remaining stream. -/
def read_string (s : List Nat) : Option (List Nat × List Nat) :=
  match readBytes 2 s with
  | (none, s') => some ([], s')
  | (some bs, s') =>
      let strlen : Int := toSigned 16 (beNat bs)
      if strlen < 0 then none
      else
        match readBytes strlen.toNat s' with
        | (some str, s'') => some (str, s'')
        | (none, s'') => some (List.replicate strlen.toNat 0, s'')

/-! ## Result types (Go multiple returns, plus panic/divergence) -/

inductive DErr where
  | notCompound
  | unknownType : Nat → DErr
deriving DecidableEq

inductive GoPanic where
  /-- `make` with a negative length (`makeslice: len out of range`). -/
  | makeNegLen
  /-- `read_list`'s `default: panic(fmt.Sprintf("%#v", list_type))`. -/
  | listType : Nat → GoPanic
deriving DecidableEq

/-- Result of `read_compound`: the Go pair `(*Compound, error)`, where the
root accompanies the error (`return root, err`). -/
inductive RCRes where
  | ok : Compound → List Nat → RCRes
  | fail : Compound → DErr → RCRes
  | panicRes : GoPanic → RCRes
  | diverge : RCRes

/-- Result of `read_list`: the Go pair `(*List, error)`; on error the list
is `nil` (`return nil, err`). -/
inductive RLRes where
  | ok : NbtList → List Nat → RLRes
  | fail : DErr → RLRes
  | panicRes : GoPanic → RLRes
  | diverge : RLRes

/-- Result of the element loop of `read_list`'s `TagCompound` case. -/
inductive RCsRes where
  | ok : List Compound → List Nat → RCsRes
  | fail : DErr → RCsRes
  | panicRes : GoPanic → RCsRes
  | diverge : RCsRes

/-- Result of `Decode`: the Go pair `(*Compound, error)`. -/
inductive DecRes where
  | res : Option Compound → Option DErr → DecRes
  | panicRes : GoPanic → DecRes
  | diverge : DecRes

/-- Rebuild the Go `root` pointer from the decode loop's zipper state: each
in-progress ancestor already holds its (partially built) child under the
name recorded when the child was entered (`current.data[name] = c`). -/
def collapse (cur : Compound) (stk : List (List Nat × Compound)) : Compound :=
  match stk with
  | [] => cur
  | (nm, p) :: rest =>
      collapse (.mk p.name (mapInsert p.data nm (.vCompound cur))) rest

/-! ## The decoder (`read_compound`, `read_list`, `Decode`) -/

mutual

/-- The member-enumeration loop of `read_compound`.  State: remaining fuel
(one unit per loop iteration or list element; exhaustion models the
non-termination the source permits), the loop's `tag` variable (which keeps
its previous value when the 1-byte read fails, because the read error is
ignored), the `current` compound, the stack of open ancestors (the source's
parent-pointer chain, each with the member name under which the child was
entered), and the stream. -/
def rc_loop : Nat → Nat → Compound → List (List Nat × Compound) → List Nat →
    RCRes
  | 0, _, _, _, _ => .diverge
  | fuel + 1, tagv, cur, stk, s =>
    -- read(&tag, src): at end of stream `tag` keeps its previous value
    let tag : Nat := match s with | [] => tagv | b :: _ => b
    let s₁ : List Nat := match s with | [] => [] | _ :: r => r
    if tag = TagEnd then
      -- pop to the enclosing compound, or return the root
      match stk with
      | [] => .ok cur s₁
      | (nm, par) :: rest =>
          rc_loop fuel tag
            (.mk par.name (mapInsert par.data nm (.vCompound cur))) rest s₁
    else if tag = TagByte then
      match read_string s₁ with
      | none => .panicRes .makeNegLen
      | some (nm, s₂) =>
          let v := readScalar 1 s₂
          rc_loop fuel tag
            (.mk cur.name (mapInsert cur.data nm (.vByte (toSigned 8 v.1))))
            stk v.2
    else if tag = TagShort then
      match read_string s₁ with
      | none => .panicRes .makeNegLen
      | some (nm, s₂) =>
          let v := readScalar 2 s₂
          rc_loop fuel tag
            (.mk cur.name (mapInsert cur.data nm (.vShort (toSigned 16 v.1))))
            stk v.2
    else if tag = TagInt then
      match read_string s₁ with
      | none => .panicRes .makeNegLen
      | some (nm, s₂) =>
          let v := readScalar 4 s₂
          rc_loop fuel tag
            (.mk cur.name (mapInsert cur.data nm (.vInt (toSigned 32 v.1))))
            stk v.2
    else if tag = TagLong then
      match read_string s₁ with
      | none => .panicRes .makeNegLen
      | some (nm, s₂) =>
          let v := readScalar 8 s₂
          rc_loop fuel tag
            (.mk cur.name (mapInsert cur.data nm (.vLong (toSigned 64 v.1))))
            stk v.2
    else if tag = TagFloat then
      match read_string s₁ with
      | none => .panicRes .makeNegLen
      | some (nm, s₂) =>
          let v := readScalar 4 s₂
          rc_loop fuel tag
            (.mk cur.name (mapInsert cur.data nm (.vFloat v.1))) stk v.2
    else if tag = TagDouble then
      match read_string s₁ with
      | none => .panicRes .makeNegLen
      | some (nm, s₂) =>
          let v := readScalar 8 s₂
          rc_loop fuel tag
            (.mk cur.name (mapInsert cur.data nm (.vDouble v.1))) stk v.2
    else if tag = TagByteArray then
      match read_string s₁ with
      | none => .panicRes .makeNegLen
      | some (nm, s₂) =>
          let lr := readScalar 4 s₂
          let len := toSigned 32 lr.1
          if len < 0 then .panicRes .makeNegLen  -- make([]int8, length)
          else
            let arr := readBEArray 1 len.toNat lr.2
            rc_loop fuel tag
              (.mk cur.name
                (mapInsert cur.data nm (.vByteArray (arr.1.map (toSigned 8)))))
              stk arr.2
    else if tag = TagString then
      match read_string s₁ with
      | none => .panicRes .makeNegLen
      | some (nm, s₂) =>
          match read_string s₂ with
          | none => .panicRes .makeNegLen
          | some (str, s₃) =>
              rc_loop fuel tag
                (.mk cur.name (mapInsert cur.data nm (.vString str))) stk s₃
    else if tag = TagList then
      match read_list fuel s₁ with
      | .ok l s₂ =>
          rc_loop fuel tag
            (.mk cur.name (mapInsert cur.data l.name (.vList l))) stk s₂
      | .fail e => .fail (collapse cur stk) e     -- return root, err
      | .panicRes pn => .panicRes pn
      | .diverge => .diverge
    else if tag = TagCompound then
      match read_string s₁ with
      | none => .panicRes .makeNegLen
      | some (nm, s₂) =>
          -- current.data[name] = c; current = c  (child inserted on pop)
          rc_loop fuel tag (.mk nm []) ((nm, cur) :: stk) s₂
    else if tag = TagIntArray then
      match read_string s₁ with
      | none => .panicRes .makeNegLen
      | some (nm, s₂) =>
          let lr := readScalar 4 s₂
          let len := toSigned 32 lr.1
          if len < 0 then .panicRes .makeNegLen  -- make([]int32, length)
          else
            let arr := readBEArray 4 len.toNat lr.2
            rc_loop fuel tag
              (.mk cur.name
                (mapInsert cur.data nm (.vIntArray (arr.1.map (toSigned 32)))))
              stk arr.2
    else
      .fail (collapse cur stk) (.unknownType tag)  -- return root, Unknown type

/-- The source's `read_list`: name, element type byte, signed 32-bit length, then the
switch on the element type (compound, byte, short, int, long, float,
double; anything else panics — there is no `TagString` case). -/
def read_list : Nat → List Nat → RLRes
  | 0, _ => .diverge
  | fuel + 1, s =>
    match read_string s with
    | none => .panicRes .makeNegLen
    | some (nm, s₁) =>
        let lt := readScalar 1 s₁
        let lr := readScalar 4 lt.2
        let len := toSigned 32 lr.1
        let s₂ := lr.2
        if lt.1 = TagCompound then
          if len < 0 then .panicRes .makeNegLen  -- make([]*Compound, length)
          else
            match read_list_compounds fuel len.toNat s₂ with
            | .ok cs s₃ => .ok (.mk nm lt.1 len (.compounds cs)) s₃
            | .fail e => .fail e                 -- return nil, err
            | .panicRes pn => .panicRes pn
            | .diverge => .diverge
        else if lt.1 = TagByte then
          if len < 0 then .panicRes .makeNegLen
          else
            let arr := readBEArray 1 len.toNat s₂
            .ok (.mk nm lt.1 len (.bytesL (arr.1.map (toSigned 8)))) arr.2
        else if lt.1 = TagShort then
          if len < 0 then .panicRes .makeNegLen
          else
            let arr := readBEArray 2 len.toNat s₂
            .ok (.mk nm lt.1 len (.shortsL (arr.1.map (toSigned 16)))) arr.2
        else if lt.1 = TagInt then
          if len < 0 then .panicRes .makeNegLen
          else
            let arr := readBEArray 4 len.toNat s₂
            .ok (.mk nm lt.1 len (.intsL (arr.1.map (toSigned 32)))) arr.2
        else if lt.1 = TagLong then
          if len < 0 then .panicRes .makeNegLen
          else
            let arr := readBEArray 8 len.toNat s₂
            .ok (.mk nm lt.1 len (.longsL (arr.1.map (toSigned 64)))) arr.2
        else if lt.1 = TagFloat then
          if len < 0 then .panicRes .makeNegLen
          else
            let arr := readBEArray 4 len.toNat s₂
            .ok (.mk nm lt.1 len (.floatsL arr.1)) arr.2
        else if lt.1 = TagDouble then
          if len < 0 then .panicRes .makeNegLen
          else
            let arr := readBEArray 8 len.toNat s₂
            .ok (.mk nm lt.1 len (.doublesL arr.1)) arr.2
        else
          .panicRes (.listType lt.1)  -- default: panic(fmt.Sprintf(...))

/-- The element loop of `read_list`'s compound case: `length` calls of
`read_compound(src, "", nil)` (empty name, no enclosing parent); the first
error aborts (`return nil, err`, discarding the partial root). -/
def read_list_compounds : Nat → Nat → List Nat → RCsRes
  | _, 0, s => .ok [] s
  | 0, _ + 1, _ => .diverge
  | fuel + 1, n + 1, s =>
    match rc_loop fuel 0 (.mk [] []) [] s with
    | .ok c s' =>
        match read_list_compounds fuel n s' with
        | .ok cs s'' => .ok (c :: cs) s''
        | r => r
    | .fail _ e => .fail e
    | .panicRes pn => .panicRes pn
    | .diverge => .diverge

end

/-- The source's `read_compound(src, name, parent)`: both call sites pass
`parent = nil`, modelled by the empty ancestor stack; the `tag` variable
starts at its zero value. -/
def read_compound (fuel : Nat) (s : List Nat) (name : List Nat) : RCRes :=
  rc_loop fuel 0 (.mk name []) [] s

/-- The source's `Decode(src)`: reads the first tag byte (the ignored read error leaves
`var tag byte` at 0 on an empty stream), fails with `ErrNotCompound`
unless it is `TagCompound`, then reads the root name and delegates to
`read_compound` with no enclosing parent. -/
def Decode (fuel : Nat) (s : List Nat) : DecRes :=
  let t := readScalar 1 s
  if t.1 ≠ TagCompound then .res none (some .notCompound)
  else
    match read_string t.2 with
    | none => .panicRes .makeNegLen
    | some (nm, s₁) =>
        match read_compound fuel s₁ nm with
        | .ok c _ => .res (some c) none
        | .fail c e => .res (some c) (some e)
        | .panicRes pn => .panicRes pn
        | .diverge => .diverge

/-! ## Accessors (nbt.go)

Each accessor is a Go type assertion `self.data[name].(T)` whose failure is
a runtime panic, modelled by `none`.  The six scalar accessors assert the
**value** types `int8 … float64`, but the decoder stores those members as
**pointers** (`store` saves `&value`, dynamic types `*int8 … *float64`), so
on any decoded tree these assertions match no variant and always panic;
the `String`, `List` and `Compound` accessors assert `string`, `*List` and
`*Compound`, which are exactly what the decoder stores.

(`NbtCompound`/`GoStr` below only work around Lean name resolution inside
the `Compound` namespace, where `Compound`, `Int` and `List` would refer to
the accessors themselves.) -/

abbrev NbtCompound := Compound

abbrev GoStr := List ℕ

def Compound.Byte (c : NbtCompound) (nm : GoStr) : Option ℤ :=
  match alookup c.data nm with
  | some (.vByte _) => none  -- dynamic type *int8, asserted int8: panic
  | _ => none                -- absent (nil) or other type: panic

def Compound.Short (c : NbtCompound) (nm : GoStr) : Option ℤ :=
  match alookup c.data nm with
  | some (.vShort _) => none  -- dynamic type *int16, asserted int16: panic
  | _ => none

def Compound.Int (c : NbtCompound) (nm : GoStr) : Option ℤ :=
  match alookup c.data nm with
  | some (.vInt _) => none  -- dynamic type *int32, asserted int32: panic
  | _ => none

def Compound.Long (c : NbtCompound) (nm : GoStr) : Option ℤ :=
  match alookup c.data nm with
  | some (.vLong _) => none  -- dynamic type *int64, asserted int64: panic
  | _ => none

def Compound.Float (c : NbtCompound) (nm : GoStr) : Option ℕ :=
  match alookup c.data nm with
  | some (.vFloat _) => none  -- dynamic type *float32, asserted float32
  | _ => none

def Compound.Double (c : NbtCompound) (nm : GoStr) : Option ℕ :=
  match alookup c.data nm with
  | some (.vDouble _) => none  -- dynamic type *float64, asserted float64
  | _ => none

set_option linter.dupNamespace false in
def Compound.Compound (c : NbtCompound) (nm : GoStr) : Option NbtCompound :=
  match alookup c.data nm with
  | some (.vCompound cc) => some cc  -- *Compound matches the assertion
  | _ => none

def Compound.List (c : NbtCompound) (nm : GoStr) : Option NbtList :=
  match alookup c.data nm with
  | some (.vList l) => some l  -- *List matches the assertion
  | _ => none

def Compound.String (c : NbtCompound) (nm : GoStr) : Option GoStr :=
  match alookup c.data nm with
  | some (.vString str) => some str  -- string matches the assertion
  | _ => none

def Compound.Name (c : NbtCompound) : GoStr := c.name

def Compound.Len (c : NbtCompound) : ℕ := c.data.length

/-! List accessors: type assertions on the `data interface{}` slot. -/

def NbtList.ListType (l : NbtList) : ℕ := l.list_type

def NbtList.Len (l : NbtList) : ℤ := l.length

def NbtList.Bytes (l : NbtList) : Option (List ℤ) :=
  match l.ldata with
  | .bytesL vs => some vs
  | _ => none

def NbtList.Shorts (l : NbtList) : Option (List ℤ) :=
  match l.ldata with
  | .shortsL vs => some vs
  | _ => none

def NbtList.Ints (l : NbtList) : Option (List ℤ) :=
  match l.ldata with
  | .intsL vs => some vs
  | _ => none

def NbtList.Longs (l : NbtList) : Option (List ℤ) :=
  match l.ldata with
  | .longsL vs => some vs
  | _ => none

def NbtList.Floats (l : NbtList) : Option (List ℕ) :=
  match l.ldata with
  | .floatsL vs => some vs
  | _ => none

def NbtList.Doubles (l : NbtList) : Option (List ℕ) :=
  match l.ldata with
  | .doublesL vs => some vs
  | _ => none

/-- The `Strings` accessor asserts `[]string`, but the list decoder has no `TagString`
case (it panics on that element type), so no decoded list ever holds a
`[]string`: the assertion panics on every decoder-produced value. -/
def NbtList.Strings (l : NbtList) : Option (List GoStr) :=
  match l.ldata with
  | .compounds _ => none
  | .bytesL _ => none
  | .shortsL _ => none
  | .intsL _ => none
  | .longsL _ => none
  | .floatsL _ => none
  | .doublesL _ => none

def NbtList.Compounds (l : NbtList) : Option (List NbtCompound) :=
  match l.ldata with
  | .compounds cs => some cs
  | _ => none

/-! ## Encodings and helper lemmas used to state and prove the claims -/

/-- Wire encoding of a length-prefixed name or text: big-endian 16-bit
length, then the bytes. -/
def encStr (bs : List Nat) : List Nat :=
  bs.length / 256 :: bs.length % 256 :: bs

/-- Wire encoding of one byte-kind compound member `(name, value byte)`. -/
def encByteMember (nm : List Nat) (b : Nat) : List Nat :=
  TagByte :: encStr nm ++ [b]

/-- Wire encoding of a sequence of byte-kind compound members. -/
def encByteMembers : List (List Nat × Nat) → List Nat
  | [] => []
  | (nm, b) :: ms => encByteMember nm b ++ encByteMembers ms

/-- The value the decoder stores for an encoded byte member. -/
def byteVal (b : Nat) : Value := .vByte (toSigned 8 b)

/-- The map obtained by storing the byte members `ms` in order into `d`. -/
def insByteMembers (d : List (List Nat × Value)) (ms : List (List Nat × Nat)) :
    List (List Nat × Value) :=
  ms.foldl (fun d m => mapInsert d m.1 (byteVal m.2)) d

/-- The value of the last member named `nm` among the byte members `ms`. -/
def lastByteVal (ms : List (List Nat × Nat)) (nm : List Nat) : Option Value :=
  match ms.reverse.find? (fun m => m.1 = nm) with
  | some m => some (byteVal m.2)
  | none => none

theorem readBytes_exact (k : Nat) (pre rest : List Nat) (h : pre.length = k) :
    readBytes k (pre ++ rest) = (some pre, rest) := by
  subst h
  simp [readBytes, List.take_left, List.drop_left]

theorem read_string_encStr (bs rest : List Nat) (h : bs.length < 32768) :
    read_string (encStr bs ++ rest) = some (bs, rest) := by
  have h1 : readBytes 2 (encStr bs ++ rest)
      = (some [bs.length / 256, bs.length % 256], bs ++ rest) := by
    have := readBytes_exact 2 [bs.length / 256, bs.length % 256] (bs ++ rest) rfl
    simpa [encStr] using this
  have h2 : beNat [bs.length / 256, bs.length % 256] = bs.length := by
    simp [beNat]
    omega
  have h3 : toSigned 16 bs.length = (bs.length : Int) := by
    simp [toSigned]
    omega
  simp [read_string, h1, h2, h3, readBytes_exact bs.length bs rest rfl]

/-- One iteration of the decode loop never looks at the remembered `tag`
value when the stream still has a byte. -/
theorem rc_loop_tag_irrel (fuel t₁ t₂ : Nat) (cur : Compound)
    (stk : List (List Nat × Compound)) (b : Nat) (s : List Nat) :
    rc_loop (fuel + 1) t₁ cur stk (b :: s)
      = rc_loop (fuel + 1) t₂ cur stk (b :: s) := by
  simp [rc_loop]

/-- A terminator with no open ancestor ends the loop with the current
compound. -/
theorem rc_loop_end_root (fuel tagv : Nat) (cur : Compound) (s : List Nat) :
    rc_loop (fuel + 1) tagv cur [] (TagEnd :: s) = .ok cur s := by
  simp [rc_loop, TagEnd]

/-- A terminator with an open ancestor resumes the ancestor's loop, with
the finished child inserted under the name it was entered with. -/
theorem rc_loop_end_pop (fuel tagv : Nat) (cur par : Compound) (nm : List Nat)
    (stk : List (List Nat × Compound)) (s : List Nat) :
    rc_loop (fuel + 1) tagv cur ((nm, par) :: stk) (TagEnd :: s)
      = rc_loop fuel TagEnd
          (.mk par.name (mapInsert par.data nm (.vCompound cur))) stk s := by
  simp [rc_loop, TagEnd]

/-- One encoded byte member is consumed in one loop iteration and stored
into the current compound. -/
theorem rc_loop_byte_member (fuel tagv : Nat) (cur : Compound)
    (stk : List (List Nat × Compound)) (nm : List Nat) (b : Nat)
    (rest : List Nat) (h : nm.length < 32768) :
    rc_loop (fuel + 1) tagv cur stk (encByteMember nm b ++ rest)
      = rc_loop fuel TagByte
          (.mk cur.name (mapInsert cur.data nm (byteVal b))) stk rest := by
  have hs : read_string (encStr nm ++ (b :: rest)) = some (nm, b :: rest) :=
    read_string_encStr nm (b :: rest) h
  simp [rc_loop, encByteMember, TagByte, TagEnd, byteVal]
  simp [hs, readScalar, readBytes, beNat]

theorem alookup_mapInsert (d : List (List Nat × Value)) (k k' : List Nat)
    (v : Value) :
    alookup (mapInsert d k v) k' = if k' = k then some v else alookup d k' := by
  induction d with
  | nil => simp [mapInsert, alookup, eq_comm]
  | cons e d ih =>
    obtain ⟨k₀, v₀⟩ := e
    by_cases h : k₀ = k
    · subst h
      by_cases h1 : k' = k₀ <;> simp [mapInsert, alookup, h1, eq_comm]
    · by_cases h1 : k₀ = k' <;> by_cases h2 : k' = k <;>
        simp_all [mapInsert, alookup]

theorem keys_mapInsert (d : List (List Nat × Value)) (k : List Nat)
    (v : Value) :
    (mapInsert d k v).map Prod.fst
      = if k ∈ d.map Prod.fst then d.map Prod.fst
        else d.map Prod.fst ++ [k] := by
  induction d with
  | nil => simp [mapInsert]
  | cons e d ih =>
    obtain ⟨k₀, v₀⟩ := e
    by_cases h : k₀ = k
    · subst h; simp [mapInsert]
    · simp only [mapInsert, if_neg h, List.map_cons, ih]
      by_cases hm : k ∈ d.map Prod.fst <;>
        simp [hm, Ne.symm h, List.mem_cons]

theorem keys_toFinset_mapInsert (d : List (List Nat × Value)) (k : List Nat)
    (v : Value) :
    ((mapInsert d k v).map Prod.fst).toFinset
      = insert k (d.map Prod.fst).toFinset := by
  rw [keys_mapInsert]
  by_cases hm : k ∈ d.map Prod.fst
  · rw [if_pos hm, Finset.insert_eq_self.2 (List.mem_toFinset.2 hm)]
  · rw [if_neg hm]
    ext x
    simp [List.mem_toFinset, or_comm]

theorem keys_nodup_mapInsert (d : List (List Nat × Value)) (k : List Nat)
    (v : Value) (h : (d.map Prod.fst).Nodup) :
    ((mapInsert d k v).map Prod.fst).Nodup := by
  rw [keys_mapInsert]
  by_cases hm : k ∈ d.map Prod.fst
  · simpa [hm]
  · simp [hm, List.nodup_append, h]

theorem insByteMembers_cons (d : List (List Nat × Value)) (nm : List Nat)
    (b : Nat) (ms : List (List Nat × Nat)) :
    insByteMembers d ((nm, b) :: ms)
      = insByteMembers (mapInsert d nm (byteVal b)) ms := rfl

theorem lastByteVal_cons (k : List Nat) (b : Nat) (ms : List (List Nat × Nat))
    (nm : List Nat) :
    lastByteVal ((k, b) :: ms) nm
      = (lastByteVal ms nm).or (if k = nm then some (byteVal b) else none) := by
  unfold lastByteVal
  rw [List.reverse_cons, List.find?_append]
  cases hf : ms.reverse.find? (fun m => m.1 = nm) with
  | some y => simp [hf]
  | none => by_cases hk : k = nm <;> simp [hf, hk, List.find?]

theorem alookup_insByteMembers (ms : List (List Nat × Nat)) :
    ∀ (d : List (List Nat × Value)) (nm : List Nat),
      alookup (insByteMembers d ms) nm
        = (lastByteVal ms nm).or (alookup d nm) := by
  induction ms with
  | nil => intro d nm; simp [insByteMembers, lastByteVal]
  | cons m ms ih =>
    intro d nm
    obtain ⟨k, b⟩ := m
    rw [insByteMembers_cons, ih, lastByteVal_cons, alookup_mapInsert]
    cases hl : lastByteVal ms nm with
    | some y => simp
    | none =>
        by_cases hk : k = nm
        · simp [hk]
        · simp [hk, Ne.symm hk]

theorem keys_toFinset_insByteMembers (ms : List (List Nat × Nat)) :
    ∀ d : List (List Nat × Value),
      ((insByteMembers d ms).map Prod.fst).toFinset
        = (d.map Prod.fst).toFinset ∪ (ms.map Prod.fst).toFinset := by
  induction ms with
  | nil => intro d; simp [insByteMembers]
  | cons m ms ih =>
    intro d
    obtain ⟨k, b⟩ := m
    rw [insByteMembers_cons, ih, keys_toFinset_mapInsert]
    ext x
    simp

theorem keys_nodup_insByteMembers (ms : List (List Nat × Nat)) :
    ∀ d : List (List Nat × Value), (d.map Prod.fst).Nodup →
      ((insByteMembers d ms).map Prod.fst).Nodup := by
  induction ms with
  | nil => intro d h; simpa [insByteMembers] using h
  | cons m ms ih =>
    intro d h
    obtain ⟨k, b⟩ := m
    rw [insByteMembers_cons]
    exact ih _ (keys_nodup_mapInsert d k (byteVal b) h)

theorem length_insByteMembers (ms : List (List Nat × Nat)) :
    (insByteMembers [] ms).length = (ms.map Prod.fst).toFinset.card := by
  have hn : ((insByteMembers [] ms).map Prod.fst).Nodup :=
    keys_nodup_insByteMembers ms [] (by simp)
  have hf := keys_toFinset_insByteMembers ms []
  calc (insByteMembers [] ms).length
      = ((insByteMembers [] ms).map Prod.fst).length := by simp
    _ = ((insByteMembers [] ms).map Prod.fst).toFinset.card :=
        (List.toFinset_card_of_nodup hn).symm
    _ = (ms.map Prod.fst).toFinset.card := by rw [hf]; simp

/-- The decode loop consumes a run of encoded byte members one iteration
each, storing them in order, and arrives at the next tag byte. -/
theorem rc_loop_byte_members (ms : List (List Nat × Nat)) :
    ∀ (fuel t t' : Nat) (cn : List Nat) (d : List (List Nat × Value))
      (stk : List (List Nat × Compound)) (b : Nat) (s : List Nat),
      (∀ m ∈ ms, m.1.length < 32768) →
      rc_loop (ms.length + fuel + 1) t (.mk cn d) stk
          (encByteMembers ms ++ b :: s)
        = rc_loop (fuel + 1) t' (.mk cn (insByteMembers d ms)) stk (b :: s) := by
  induction ms with
  | nil =>
    intro fuel t t' cn d stk b s _
    simpa [encByteMembers, insByteMembers] using
      rc_loop_tag_irrel fuel t t' (.mk cn d) stk b s
  | cons m ms ih =>
    intro fuel t t' cn d stk b s h
    obtain ⟨nm, vb⟩ := m
    have hnm : nm.length < 32768 := by
      have := h (nm, vb) (by simp)
      simpa using this
    have hfuel : (((nm, vb) :: ms).length + fuel + 1)
        = (ms.length + fuel + 1) + 1 := by simp; omega
    rw [hfuel]
    have hstream : encByteMembers ((nm, vb) :: ms) ++ b :: s
        = encByteMember nm vb ++ (encByteMembers ms ++ b :: s) := by
      simp [encByteMembers]
    rw [hstream,
      rc_loop_byte_member (ms.length + fuel + 1) t (.mk cn d) stk nm vb _ hnm]
    rw [insByteMembers_cons]
    exact ih fuel TagByte t' cn (mapInsert d nm (byteVal vb)) stk b s
      (fun m hm => h m (by simp [hm]))

/-- Full decode of a root compound consisting of a run of byte members:
succeeds with no error and stores the members in order. -/
theorem Decode_byteMembers (rn : List Nat) (ms : List (List Nat × Nat))
    (s : List Nat) (hrn : rn.length < 32768)
    (hms : ∀ m ∈ ms, m.1.length < 32768) :
    Decode (ms.length + 1)
        (TagCompound :: (encStr rn ++ (encByteMembers ms ++ TagEnd :: s)))
      = .res (some (.mk rn (insByteMembers [] ms))) none := by
  have h2 := rc_loop_byte_members ms 0 0 TagEnd rn [] [] TagEnd s hms
  rw [rc_loop_end_root] at h2
  simp only [Nat.add_zero] at h2
  simp [Decode, readScalar, readBytes, beNat, TagCompound,
    read_string_encStr rn _ hrn, read_compound, h2]

/-- Entering a nested compound pushes the current compound onto the open
ancestor stack and continues with the (empty) child as current. -/
theorem rc_loop_push (fuel tagv : Nat) (cur : Compound)
    (stk : List (List Nat × Compound)) (nm : List Nat) (rest : List Nat)
    (h : nm.length < 32768) :
    rc_loop (fuel + 1) tagv cur stk (TagCompound :: (encStr nm ++ rest))
      = rc_loop fuel TagCompound (.mk nm []) ((nm, cur) :: stk) rest := by
  simp [rc_loop, TagEnd, TagByte, TagShort, TagInt, TagLong, TagFloat,
    TagDouble, TagByteArray, TagString, TagList, TagCompound,
    read_string_encStr nm rest h]

/-- Unfolding `Decode` on a container root: reads the tag and name and delegates to
the compound loop. -/
theorem Decode_root (fuel : Nat) (rn x : List Nat) (h : rn.length < 32768) :
    Decode fuel (TagCompound :: (encStr rn ++ x))
      = match read_compound fuel x rn with
        | .ok c _ => .res (some c) none
        | .fail c e => .res (some c) (some e)
        | .panicRes pn => .panicRes pn
        | .diverge => .diverge := by
  simp [Decode, readScalar, readBytes, beNat, TagCompound,
    read_string_encStr rn x h]

/-! ## Claims -/

/-- C1: reading a terminator when an enclosing container was supplied (the
ancestor stack is nonempty) resumes the enclosing container's
member-enumeration loop — the finished child is inserted into the parent
and the loop continues on the parent, so subsequent members are inserted
into the parent — while a terminator with no enclosing container ends the
decode, returning the current container; the root call (`Decode`) supplies
no enclosing container, so its terminator yields the final result.  The
third conjunct exhibits the mechanism end to end on `Decode`: the child's
members land in the child, and the members after the child's terminator
land in the parent. -/
theorem C1_terminator_resumes_parent_or_returns
    (fuel tagv : Nat) (cur par : Compound) (nm cn rn : List Nat)
    (stk : List (List Nat × Compound)) (s : List Nat)
    (cms pms : List (List Nat × Nat))
    (hrn : rn.length < 32768) (hcn : cn.length < 32768)
    (hcms : ∀ m ∈ cms, m.1.length < 32768)
    (hpms : ∀ m ∈ pms, m.1.length < 32768) :
    rc_loop (fuel + 1) tagv cur ((nm, par) :: stk) (TagEnd :: s)
        = rc_loop fuel TagEnd
            (.mk par.name (mapInsert par.data nm (.vCompound cur))) stk s
    ∧ rc_loop (fuel + 1) tagv cur [] (TagEnd :: s) = .ok cur s
    ∧ Decode (cms.length + pms.length + 3)
        (TagCompound :: (encStr rn ++ (TagCompound :: (encStr cn
          ++ (encByteMembers cms ++ (TagEnd :: (encByteMembers pms
          ++ TagEnd :: s)))))))
        = .res (some (.mk rn (insByteMembers
            [(cn, .vCompound (.mk cn (insByteMembers [] cms)))] pms))) none := by
  refine ⟨rc_loop_end_pop fuel tagv cur par nm stk s,
    rc_loop_end_root fuel tagv cur s, ?_⟩
  rw [Decode_root _ _ _ hrn]
  rw [read_compound]
  rw [show cms.length + pms.length + 3 = (cms.length + pms.length + 2) + 1
    from by omega]
  rw [rc_loop_push (cms.length + pms.length + 2) 0 (.mk rn []) [] cn _ hcn]
  rw [show cms.length + pms.length + 2 = cms.length + (pms.length + 1) + 1
    from by omega]
  rw [rc_loop_byte_members cms (pms.length + 1) TagCompound TagEnd cn []
    [(cn, .mk rn [])] TagEnd (encByteMembers pms ++ TagEnd :: s) hcms]
  rw [rc_loop_end_pop (pms.length + 1) TagEnd
    (.mk cn (insByteMembers [] cms)) (.mk rn []) cn []
    (encByteMembers pms ++ TagEnd :: s)]
  simp only [Compound.name, Compound.data, mapInsert]
  rw [show pms.length + 1 = pms.length + 0 + 1 from by omega]
  rw [rc_loop_byte_members pms 0 TagEnd TagEnd rn
    [(cn, .vCompound (.mk cn (insByteMembers [] cms)))] [] TagEnd s hpms]
  rw [rc_loop_end_root]

/-- A tag byte outside 0–11 falls through the dispatch to the default
branch: the loop aborts with the unknown-type error and the Go pair
carries the current root. -/
theorem rc_loop_unknown (fuel tagv : Nat) (cur : Compound)
    (stk : List (List Nat × Compound)) (k : Nat) (s : List Nat)
    (hk : 12 ≤ k) :
    rc_loop (fuel + 1) tagv cur stk (k :: s)
      = .fail (collapse cur stk) (.unknownType k) := by
  simp [rc_loop, TagEnd, TagByte, TagShort, TagInt, TagLong, TagFloat,
    TagDouble, TagByteArray, TagString, TagList, TagCompound, TagIntArray,
    show k ≠ 0 by omega, show k ≠ 1 by omega, show k ≠ 2 by omega,
    show k ≠ 3 by omega, show k ≠ 4 by omega, show k ≠ 5 by omega,
    show k ≠ 6 by omega, show k ≠ 7 by omega, show k ≠ 8 by omega,
    show k ≠ 9 by omega, show k ≠ 10 by omega, show k ≠ 11 by omega]

/-- C8: if the first tag byte of the stream is not the container kind,
`Decode` returns the root-type error (`ErrNotCompound`) and no tree. -/
theorem C8_root_type_error (fuel : Nat) (b : Nat) (s : List Nat)
    (h : b ≠ TagCompound) :
    Decode fuel (b :: s) = .res none (some .notCompound) := by
  simp [Decode, readScalar, readBytes, beNat, h]

/-- Witness for C8: a stream starting with a scalar kind byte. -/
theorem C8_witness : Decode 0 [1] = .res none (some .notCompound) :=
  C8_root_type_error 0 1 [] (by decide)

/-- C4 counterexample: on the stream `[0x0A,0,0, 0x01,0,1,'a',0x05, 0x0C]`
(root compound with empty name, byte member `"a" = 5`, then the invalid
tag byte 12) the decode aborts, but the result carries the partially built
root — with the member `"a"` already populated — **together with** the
error, refuting the claim that only the error is returned to the caller
with no partially built tree. -/
theorem C4_counterexample :
    Decode 2 [10, 0, 0, 1, 0, 1, 97, 5, 12]
      = .res (some (.mk [] [([97], .vByte 5)])) (some (.unknownType 12)) := rfl

/-- C4 (amended): every error aborts the entire decode — an unrecognized
tag stops the member loop at once, and the error propagates to `Decode`
with no recovery — but the returned Go pair carries the partially built
root compound alongside the error rather than the error alone. -/
theorem C4_error_aborts_with_partial_root
    (fuel tagv : Nat) (cur : Compound) (stk : List (List Nat × Compound))
    (k : Nat) (s rn : List Nat) (ms : List (List Nat × Nat))
    (hk : 12 ≤ k) (hrn : rn.length < 32768)
    (hms : ∀ m ∈ ms, m.1.length < 32768) :
    rc_loop (fuel + 1) tagv cur stk (k :: s)
        = .fail (collapse cur stk) (.unknownType k)
    ∧ Decode (ms.length + 1)
        (TagCompound :: (encStr rn ++ (encByteMembers ms ++ k :: s)))
        = .res (some (.mk rn (insByteMembers [] ms)))
            (some (.unknownType k)) := by
  refine ⟨rc_loop_unknown fuel tagv cur stk k s hk, ?_⟩
  rw [Decode_root _ _ _ hrn, read_compound]
  rw [show ms.length + 1 = ms.length + 0 + 1 from by omega]
  rw [rc_loop_byte_members ms 0 0 0 rn [] [] k s hms]
  rw [rc_loop_unknown 0 0 (.mk rn (insByteMembers [] ms)) [] k s hk]
  simp [collapse]

/-- Witness for C4's amended theorem at concrete inputs. -/
theorem C4_witness :
    rc_loop 1 0 (.mk [] []) [] [12]
        = .fail (collapse (.mk [] []) []) (.unknownType 12)
    ∧ Decode 2 (TagCompound :: (encStr [] ++ (encByteMembers [([97], 5)]
        ++ 12 :: [])))
        = .res (some (.mk [] (insByteMembers [] [([97], 5)])))
            (some (.unknownType 12)) :=
  C4_error_aborts_with_partial_root 0 0 (.mk [] []) [] 12 [] []
    [([97], 5)] (by decide) (by decide) (by decide)

/-- Witness for C1 at concrete inputs: root `""`, child `"c"` with member
`"a" = 1`, then sibling `"b" = 2` stored into the parent after the child's
terminator. -/
theorem C1_witness :
    Decode 5 (TagCompound :: (encStr [] ++ (TagCompound :: (encStr [99]
        ++ (encByteMembers [([97], 1)] ++ (TagEnd :: (encByteMembers [([98], 2)]
        ++ TagEnd :: [])))))))
      = .res (some (.mk [] (insByteMembers
          [([99], .vCompound (.mk [99] (insByteMembers [] [([97], 1)])))]
          [([98], 2)]))) none :=
  (C1_terminator_resumes_parent_or_returns 0 0 (.mk [] []) (.mk [] [])
    [] [99] [] [] [] [([97], 1)] [([98], 2)]
    (by decide) (by decide) (by decide) (by decide)).2.2

/-- When the stream is exhausted the ignored read error leaves the loop's
`tag` variable at its previous value; if that value is `TagInt` the loop
re-runs the int-member case forever (empty name, zero value), so the
decode never terminates. -/
theorem rc_loop_stuck_int (fuel : Nat) :
    ∀ cur : Compound, rc_loop fuel TagInt cur [] [] = .diverge := by
  induction fuel with
  | zero => intro cur; simp [rc_loop]
  | succ f ih =>
    intro cur
    simp [rc_loop, TagEnd, TagByte, TagShort, TagInt, read_string,
      readBytes, readScalar]
    exact ih _

/-- C2 (code-bug exhibit): end of stream before a terminator is *not*
reported as a truncation error.  First conjunct: the stream ends after a
nested child's terminator but before the root's; the ignored read error
leaves `tag` at 0, which is taken for a terminator, and the partially
decoded root is returned with **no** error (`ErrTruncated` is unreachable:
the loop it follows can only be left by `return`).  Second conjunct: a
stream truncated mid-field (an int member with 2 of its 4 bytes) makes the
decode loop forever (for every fuel bound), storing a zero-filled member
under the empty name on each pass, instead of returning a truncation
error. -/
theorem C2_truncation_unreported :
    Decode 3 [10, 0, 0, 10, 0, 1, 99, 0]
        = .res (some (.mk [] [([99], .vCompound (.mk [99] []))])) none
    ∧ (∀ fuel, Decode fuel [10, 0, 0, 3, 0, 1, 97, 0, 0] = .diverge) := by
  refine ⟨rfl, ?_⟩
  intro fuel
  match fuel with
  | 0 => rfl
  | f + 1 =>
      have h1 := rc_loop_stuck_int f (.mk [] [([97], .vInt 0)])
      simp only [TagInt] at h1
      show (match rc_loop f 3 (.mk [] [([97], Value.vInt 0)]) [] [] with
            | .ok c _ => DecRes.res (some c) none
            | .fail c e => DecRes.res (some c) (some e)
            | .panicRes pn => DecRes.panicRes pn
            | .diverge => DecRes.diverge)
          = DecRes.diverge
      rw [h1]

/-- C3 (code-bug exhibit): `read_list`'s dispatch has no text case, so a
list declaring text elements hits the `default: panic` branch (first
conjunct) even though the surrounding code (`(*List).Strings`, the
pretty-printer's `TagString` branch) expects text lists to be supported;
the unimplemented element kinds (nested list 9, byte-array 7,
int-array 11) likewise panic instead of failing with an
unsupported-element-kind error (conjuncts 2–4).  The last conjunct shows a
supported scalar kind decoding its declared number of elements in order
(byte list of length 2 with values `5` and `250 = -6`). -/
theorem C3_list_unsupported_kinds_panic :
    read_list 1 [0, 0, 8, 0, 0, 0, 1] = .panicRes (.listType 8)
    ∧ read_list 1 [0, 0, 9, 0, 0, 0, 0] = .panicRes (.listType 9)
    ∧ read_list 1 [0, 0, 7, 0, 0, 0, 0] = .panicRes (.listType 7)
    ∧ read_list 1 [0, 0, 11, 0, 0, 0, 0] = .panicRes (.listType 11)
    ∧ read_list 1 [0, 0, 1, 0, 0, 0, 2, 5, 250]
        = .ok (.mk [] 1 2 (.bytesL [5, -6])) [] :=
  ⟨rfl, rfl, rfl, rfl, rfl⟩

/-- C5 (code-bug exhibit): the name/text length prefix is read into a
**signed** `int16`, so the prefix bytes `0x80 0x00` (65535-range value
32768, a legal unsigned length per the claim and the package's own format
documentation, which says "unsigned short") become `-32768` and
`make([]byte, strlen)` panics (first conjunct); prefixes below 32768 are
read as that many following bytes (second conjunct). -/
theorem C5_string_prefix_read_as_signed :
    read_string [128, 0] = none
    ∧ read_string [0, 2, 104, 105, 99] = some ([104, 105], [99]) :=
  ⟨rfl, rfl⟩

/-- C6 counterexample: a zero-length list does **not** decode regardless
of the declared element kind — kind byte 8 (text) panics even at length 0
(first conjunct) — and a zero-length list of a supported kind consumes 7
bytes beyond its name's own bytes (2-byte name length prefix + 1 kind
byte + 4 length bytes: here 8 of the 9 input bytes, name byte included,
leaving `[55]`), not 9 (second conjunct). -/
theorem C6_counterexample :
    read_list 1 [0, 1, 97, 8, 0, 0, 0, 0] = .panicRes (.listType 8)
    ∧ read_list 1 [0, 1, 97, 1, 0, 0, 0, 0, 55]
        = .ok (.mk [97] 1 0 (.bytesL [])) [55] :=
  ⟨rfl, rfl⟩

/-- The empty payload `read_list` builds for each implemented element
kind. -/
def emptyListData (lt : Nat) : ListData :=
  if lt = TagCompound then .compounds []
  else if lt = TagByte then .bytesL []
  else if lt = TagShort then .shortsL []
  else if lt = TagInt then .intsL []
  else if lt = TagLong then .longsL []
  else if lt = TagFloat then .floatsL []
  else .doublesL []

/-- C6 (amended): a list of declared length 0 whose element kind is one of
the kinds `read_list` implements (compound, byte, short, int, long, float,
double) decodes to an empty element sequence and consumes exactly 7 bytes
(2-byte name length prefix + 1 element-kind byte + 4 length bytes) beyond
the name's own bytes; for any other kind byte `read_list` panics even at
length 0 (see the counterexample). -/
theorem C6_zero_length_list (fuel : Nat) (nm rest : List Nat) (lt : Nat)
    (hnm : nm.length < 32768)
    (hlt : lt ∈ ([1, 2, 3, 4, 5, 6, 10] : List Nat)) :
    read_list (fuel + 1) (encStr nm ++ (lt :: 0 :: 0 :: 0 :: 0 :: rest))
      = .ok (.mk nm lt 0 (emptyListData lt)) rest := by
  have h1 : ∀ l : Nat, readScalar 1 (l :: 0 :: 0 :: 0 :: 0 :: rest)
      = (l, 0 :: 0 :: 0 :: 0 :: rest) := by
    intro l; simp [readScalar, readBytes, beNat]
  have h4 : readScalar 4 (0 :: 0 :: 0 :: 0 :: rest) = (0, rest) := by
    simp [readScalar, readBytes, beNat]
  have ht : toSigned 32 0 = 0 := by norm_num [toSigned]
  have harr : ∀ w : Nat, readBEArray w 0 rest = ([], rest) := by
    intro w; simp [readBEArray, readBytes, beChunksN]
  have hcs : read_list_compounds fuel 0 rest = .ok [] rest := by
    cases fuel <;> rfl
  simp only [List.mem_cons, List.not_mem_nil, or_false] at hlt
  rcases hlt with rfl | rfl | rfl | rfl | rfl | rfl | rfl <;>
    (simp only [read_list]
     rw [read_string_encStr nm _ hnm]
     simp only [h1, h4, ht]
     norm_num [TagEnd, TagByte, TagShort, TagInt, TagLong, TagFloat,
       TagDouble, TagByteArray, TagString, TagList, TagCompound,
       TagIntArray, emptyListData, harr, hcs])

/-- Witness for C6's amended theorem: a zero-length short list named
`"a"`. -/
theorem C6_witness :
    read_list 1 (encStr [97] ++ (2 :: 0 :: 0 :: 0 :: 0 :: [9]))
      = .ok (.mk [97] 2 0 (emptyListData 2)) [9] :=
  C6_zero_length_list 0 [97] [9] 2 (by decide) (by decide)

/-- C7 counterexample: a byte-array member with count bytes
`FF FF FF FF` (−1) makes `Decode` panic in `make([]int8, length)` — the
decoder crashes rather than returning a malformed-length error. -/
theorem C7_counterexample :
    Decode 2 [10, 0, 0, 7, 0, 1, 98, 255, 255, 255, 255]
      = .panicRes .makeNegLen := rfl

/-- C7 (amended): a negative 32-bit element count for a byte-array or
int-array member, or for a list of an implemented element kind, is not
clamped to zero and does not produce an error value: the decoder panics in
`make` with the negative length. -/
theorem C7_negative_count_panics
    (fuel tagv : Nat) (cur : Compound) (stk : List (List Nat × Compound))
    (nm s : List Nat) (b3 b2 b1 b0 : Nat)
    (hnm : nm.length < 32768)
    (hneg : toSigned 32 (beNat [b3, b2, b1, b0]) < 0) :
    rc_loop (fuel + 1) tagv cur stk
        (TagByteArray :: (encStr nm ++ (b3 :: b2 :: b1 :: b0 :: s)))
      = .panicRes .makeNegLen
    ∧ rc_loop (fuel + 1) tagv cur stk
        (TagIntArray :: (encStr nm ++ (b3 :: b2 :: b1 :: b0 :: s)))
      = .panicRes .makeNegLen
    ∧ read_list (fuel + 1)
        (encStr nm ++ (TagByte :: b3 :: b2 :: b1 :: b0 :: s))
      = .panicRes .makeNegLen
    ∧ read_list (fuel + 1)
        (encStr nm ++ (TagCompound :: b3 :: b2 :: b1 :: b0 :: s))
      = .panicRes .makeNegLen := by
  have hs4 : readScalar 4 (b3 :: b2 :: b1 :: b0 :: s)
      = (beNat [b3, b2, b1, b0], s) := by
    simp [readScalar, readBytes]
  refine ⟨?_, ?_, ?_, ?_⟩
  · simp [rc_loop, TagEnd, TagByte, TagShort, TagInt, TagLong, TagFloat,
      TagDouble, TagByteArray, read_string_encStr nm _ hnm, hs4, hneg]
  · simp [rc_loop, TagEnd, TagByte, TagShort, TagInt, TagLong, TagFloat,
      TagDouble, TagByteArray, TagString, TagList, TagCompound, TagIntArray,
      read_string_encStr nm _ hnm, hs4, hneg]
  · have hs1 : readScalar 1 (TagByte :: b3 :: b2 :: b1 :: b0 :: s)
        = (TagByte, b3 :: b2 :: b1 :: b0 :: s) := by
      simp [readScalar, readBytes, beNat, TagByte]
    simp only [read_list]
    rw [read_string_encStr nm _ hnm]
    simp only [hs1, hs4]
    norm_num [TagEnd, TagByte, TagShort, TagInt, TagLong, TagFloat,
      TagDouble, TagCompound, hneg]
  · have hs1 : readScalar 1 (TagCompound :: b3 :: b2 :: b1 :: b0 :: s)
        = (TagCompound, b3 :: b2 :: b1 :: b0 :: s) := by
      simp [readScalar, readBytes, beNat, TagCompound]
    simp only [read_list]
    rw [read_string_encStr nm _ hnm]
    simp only [hs1, hs4]
    norm_num [TagEnd, TagByte, TagShort, TagInt, TagLong, TagFloat,
      TagDouble, TagCompound, hneg]

/-- Witness for C7's amended theorem at count bytes `FF FF FF FF` (−1). -/
theorem C7_witness :
    rc_loop 1 0 (.mk [] []) []
        (TagByteArray :: (encStr [97] ++ (255 :: 255 :: 255 :: 255 :: [])))
      = .panicRes .makeNegLen
    ∧ rc_loop 1 0 (.mk [] []) []
        (TagIntArray :: (encStr [97] ++ (255 :: 255 :: 255 :: 255 :: [])))
      = .panicRes .makeNegLen
    ∧ read_list 1 (encStr [97] ++ (TagByte :: 255 :: 255 :: 255 :: 255 :: []))
      = .panicRes .makeNegLen
    ∧ read_list 1
        (encStr [97] ++ (TagCompound :: 255 :: 255 :: 255 :: 255 :: []))
      = .panicRes .makeNegLen :=
  C7_negative_count_panics 0 0 (.mk [] []) [] [97] [] 255 255 255 255
    (by decide) (by decide)

/-- C9: every typed accessor called with a name that is absent from the
container, or whose stored value is of a different kind, fails at runtime
(the Go type assertion panics, modelled by `none`) rather than returning a
value or an error result; likewise the `List` element-sequence accessors
when the element kind differs.  For the six scalar accessors this holds
unconditionally: the decoder stores scalars behind pointers (`store`
passes `&value`) while the accessors assert the pointee value types, so
those assertions panic on every decoded member, matching or not. -/
theorem C9_accessor_wrong_name_or_kind_panics
    (c : Compound) (nm : List Nat) (l : NbtList) :
    (c.Byte nm = none ∧ c.Short nm = none ∧ c.Int nm = none
      ∧ c.Long nm = none ∧ c.Float nm = none ∧ c.Double nm = none)
    ∧ (alookup c.data nm = none →
        c.Compound nm = none ∧ c.String nm = none ∧ c.List nm = none)
    ∧ (∀ v, alookup c.data nm = some v →
        ((∀ cc, v ≠ .vCompound cc) → c.Compound nm = none)
        ∧ ((∀ str, v ≠ .vString str) → c.String nm = none)
        ∧ ((∀ ll, v ≠ .vList ll) → c.List nm = none))
    ∧ ((∀ vs, l.ldata ≠ .bytesL vs) → l.Bytes = none)
    ∧ ((∀ vs, l.ldata ≠ .shortsL vs) → l.Shorts = none)
    ∧ ((∀ vs, l.ldata ≠ .intsL vs) → l.Ints = none)
    ∧ ((∀ vs, l.ldata ≠ .longsL vs) → l.Longs = none)
    ∧ ((∀ vs, l.ldata ≠ .floatsL vs) → l.Floats = none)
    ∧ ((∀ vs, l.ldata ≠ .doublesL vs) → l.Doubles = none)
    ∧ l.Strings = none
    ∧ ((∀ cs, l.ldata ≠ .compounds cs) → l.Compounds = none) := by
  refine ⟨⟨?_, ?_, ?_, ?_, ?_, ?_⟩, ?_, ?_, ?_, ?_, ?_, ?_, ?_, ?_, ?_, ?_⟩
  · unfold Compound.Byte; split <;> rfl
  · unfold Compound.Short; split <;> rfl
  · unfold Compound.Int; split <;> rfl
  · unfold Compound.Long; split <;> rfl
  · unfold Compound.Float; split <;> rfl
  · unfold Compound.Double; split <;> rfl
  · intro h
    exact ⟨by simp [Compound.Compound, h], by simp [Compound.String, h],
      by simp [Compound.List, h]⟩
  · intro v hv
    refine ⟨?_, ?_, ?_⟩
    · intro hne
      cases v
      case vCompound cc => exact absurd rfl (hne cc)
      all_goals simp [Compound.Compound, hv]
    · intro hne
      cases v
      case vString str => exact absurd rfl (hne str)
      all_goals simp [Compound.String, hv]
    · intro hne
      cases v
      case vList ll => exact absurd rfl (hne ll)
      all_goals simp [Compound.List, hv]
  · intro hne
    cases hd : l.ldata
    case bytesL vs => exact absurd hd (hne vs)
    all_goals simp [NbtList.Bytes, hd]
  · intro hne
    cases hd : l.ldata
    case shortsL vs => exact absurd hd (hne vs)
    all_goals simp [NbtList.Shorts, hd]
  · intro hne
    cases hd : l.ldata
    case intsL vs => exact absurd hd (hne vs)
    all_goals simp [NbtList.Ints, hd]
  · intro hne
    cases hd : l.ldata
    case longsL vs => exact absurd hd (hne vs)
    all_goals simp [NbtList.Longs, hd]
  · intro hne
    cases hd : l.ldata
    case floatsL vs => exact absurd hd (hne vs)
    all_goals simp [NbtList.Floats, hd]
  · intro hne
    cases hd : l.ldata
    case doublesL vs => exact absurd hd (hne vs)
    all_goals simp [NbtList.Doubles, hd]
  · cases hd : l.ldata <;> simp [NbtList.Strings, hd]
  · intro hne
    cases hd : l.ldata
    case compounds cs => exact absurd hd (hne cs)
    all_goals simp [NbtList.Compounds, hd]

/-- Witness for C9: a member of byte kind makes `Byte` (pointer-typed
slot) and `String` (wrong kind) panic; an absent name makes `Compound`
panic; a byte list makes `Shorts` and `Strings` panic. -/
theorem C9_witness :
    Compound.Byte (.mk [] [([97], .vByte 1)]) [97] = none
    ∧ Compound.Compound (.mk [] []) [97] = none
    ∧ Compound.String (.mk [] [([97], .vByte 1)]) [97] = none
    ∧ NbtList.Shorts (.mk [] 1 0 (.bytesL [])) = none
    ∧ NbtList.Strings (.mk [] 1 0 (.bytesL [])) = none := by
  have h1 := C9_accessor_wrong_name_or_kind_panics
    (.mk [] [([97], .vByte 1)]) [97] (.mk [] 1 0 (.bytesL []))
  have h2 := C9_accessor_wrong_name_or_kind_panics
    (.mk [] []) [97] (.mk [] 1 0 (.bytesL []))
  obtain ⟨A, -, C, -, E, -, -, -, -, J, -⟩ := h1
  have B2 := h2.2.1
  refine ⟨A.1, (B2 (by simp [Compound.data, alookup])).1, ?_, ?_, J⟩
  · exact ((C (.vByte 1) (by simp [Compound.data, alookup])).2.1)
      (by intro str h; cases h)
  · exact E (by intro vs h; simp [NbtList.ldata] at h)

/-- C10: a container whose member stream contains members with duplicate
names decodes without error; the resulting container maps each name to the
value of the **last** member bearing it (the Go map assignment
overwrites); consequently `Len` counts distinct names and is at most the
number of members read from the stream (strictly smaller when duplicates
occur, as in the witness). -/
theorem C10_duplicate_names_last_member_wins
    (rn : List Nat) (ms : List (List Nat × Nat)) (s : List Nat)
    (hrn : rn.length < 32768) (hms : ∀ m ∈ ms, m.1.length < 32768) :
    Decode (ms.length + 1)
        (TagCompound :: (encStr rn ++ (encByteMembers ms ++ TagEnd :: s)))
      = .res (some (.mk rn (insByteMembers [] ms))) none
    ∧ (∀ nm, alookup (insByteMembers [] ms) nm = lastByteVal ms nm)
    ∧ (Compound.mk rn (insByteMembers [] ms)).Len
        = (ms.map Prod.fst).toFinset.card
    ∧ (Compound.mk rn (insByteMembers [] ms)).Len ≤ ms.length := by
  have hLen : (Compound.mk rn (insByteMembers [] ms)).Len
      = (ms.map Prod.fst).toFinset.card := by
    simp [Compound.Len, Compound.data, length_insByteMembers]
  refine ⟨Decode_byteMembers rn ms s hrn hms, ?_, hLen, ?_⟩
  · intro nm
    rw [alookup_insByteMembers ms [] nm]
    simp [alookup]
  · rw [hLen]
    calc (ms.map Prod.fst).toFinset.card ≤ (ms.map Prod.fst).length :=
          List.toFinset_card_le _
      _ = ms.length := by simp

/-- Witness for C10: two members both named `"a"`; the decode succeeds,
keeps only the second value (`2`), and `Len = 1 < 2` members read. -/
theorem C10_witness :
    Decode 3 (TagCompound :: (encStr [] ++ (encByteMembers
        [([97], 1), ([97], 2)] ++ TagEnd :: [])))
      = .res (some (.mk [] (insByteMembers [] [([97], 1), ([97], 2)]))) none
    ∧ insByteMembers [] [([97], 1), ([97], 2)] = [([97], .vByte 2)]
    ∧ (Compound.mk [] (insByteMembers [] [([97], 1), ([97], 2)])).Len = 1 := by
  have h := C10_duplicate_names_last_member_wins [] [([97], 1), ([97], 2)] []
    (by decide) (by decide)
  exact ⟨h.1, rfl, rfl⟩
